import Mathlib

/-!
Verification of the TF-IDF retrieval core of the MineAgents repository,
`mineagents/knowledge/index.py`.

The Python module is embedded shallowly:

* `_tokenize` (backed by `WORD_RE = re.compile(r"[a-z0-9]+", re.IGNORECASE)`)
  becomes a scan over the string's characters.  Python's Unicode
  case-insensitive matching makes the class `[a-z0-9]` match, besides the
  ASCII letters and digits, exactly the four characters U+0130 (İ),
  U+0131 (ı), U+017F (ſ) and U+212A (K, the Kelvin sign); this was
  determined by exhausting the whole code-point range against CPython's
  `sre` engine.
* floats become real numbers (`ℝ`), `math.log` becomes `Real.log`,
  `math.sqrt` becomes `Real.sqrt`;
* `Counter` / `dict` values become total functions with the `get`-default
  (absent key ⇒ 0) baked in;
* the mutable `HowToIndex` becomes a record, with each mutating method
  returning the updated record; `search` returns the updated record
  together with its result list;
* Python's stable `list.sort(key=..., reverse=True)` becomes
  `List.mergeSort` with the reflexive "score not below" comparison, which
  has the same denotation (stable, descending by score);
* the slice `scores[:top_k]` keeps Python's semantics for negative
  indices (`pyTakeSlice`).
-/

namespace MineAgents

/-! ### Tokenizer -/

/-- Character class of `WORD_RE = re.compile(r"[a-z0-9]+", re.IGNORECASE)`.
Under CPython's Unicode case-insensitive matching the class `[a-z0-9]`
matches the ASCII letters (both cases) and digits together with exactly
four more code points: U+0130, U+0131, U+017F and U+212A. -/
def wordChar (c : Char) : Bool :=
  ('a' ≤ c && c ≤ 'z') || ('A' ≤ c && c ≤ 'Z') || ('0' ≤ c && c ≤ '9') ||
    c = 'İ' || c = 'ı' || c = 'ſ' || c = 'K'

/-- `re.findall` of a single character-class-plus pattern: the regex
engine's left-to-right scan, accumulating the current (reversed) run of
matching characters.  Structurally recursive so that it evaluates inside
`decide`/`rfl`. -/
def scanRuns (p : Char → Bool) : List Char → Option (List Char) → List (List Char)
  | [], none => []
  | [], some run => [run.reverse]
  | c :: cs, none =>
      if p c then scanRuns p cs (some [c]) else scanRuns p cs none
  | c :: cs, some run =>
      if p c then scanRuns p cs (some (c :: run))
      else run.reverse :: scanRuns p cs none

/-- Declarative form of the same scan: the maximal runs of characters
satisfying `p`, in order of appearance. -/
def maximalRuns (p : Char → Bool) : List Char → List (List Char)
  | [] => []
  | c :: cs =>
      if p c then (c :: cs.takeWhile p) :: maximalRuns p (cs.dropWhile p)
      else maximalRuns p cs
termination_by l => l.length
decreasing_by
  · exact Nat.lt_succ_of_le (List.dropWhile_sublist p).length_le
  · exact Nat.lt_succ_of_le (Nat.le_refl _)

/-- Python `str.lower` on the individual characters that `WORD_RE` can
match (the only characters `_tokenize` ever lowercases): ASCII uppercase
maps down by 32, U+0130 lowercases to the two characters "i U+0307",
U+212A lowercases to `k`, everything else in the class is already
lowercase and is fixed. -/
def pyLowerChar (c : Char) : List Char :=
  if 'A' ≤ c && c ≤ 'Z' then [Char.ofNat (c.toNat + 32)]
  else if c = 'İ' then ['i', '\u0307']
  else if c = 'K' then ['k']
  else [c]

/-- `_tokenize(text) = [token.lower() for token in WORD_RE.findall(text)]`. -/
def _tokenize (text : String) : List String :=
  (scanRuns wordChar text.data none).map (fun run => String.mk (run.flatMap pyLowerChar))

/-! ### Python string helpers used by `search` -/

/-- Python `str.isspace` on a single character (the exact set of code
points for which CPython's `str.isspace` holds, up to U+3000). -/
def pyIsSpace (c : Char) : Bool :=
  c = '\u0009' || c = '\u000A' || c = '\u000B' || c = '\u000C' || c = '\u000D' ||
  c = '\u001C' || c = '\u001D' || c = '\u001E' || c = '\u001F' || c = ' ' ||
  c = '\u0085' || c = '\u00A0' || c = '\u1680' ||
  ('\u2000' ≤ c && c ≤ '\u200A') ||
  c = '\u2028' || c = '\u2029' || c = '\u202F' || c = '\u205F' || c = '\u3000'

/-- Python `str.strip()`: drop whitespace from both ends. -/
def pyStrip (s : String) : String :=
  String.mk (((s.data.dropWhile pyIsSpace).reverse.dropWhile pyIsSpace).reverse)

/-- Python's prefix slice `l[:k]`, including the negative-`k` case
(`l[:k]` with `k < 0` keeps the first `len(l) + k` elements, clamped
at zero). -/
def pyTakeSlice {α : Type _} (k : Int) (l : List α) : List α :=
  if 0 ≤ k then l.take k.toNat else l.take ((l.length : Int) + k).toNat

/-! ### Data model -/

/-- `KnowledgeEntry` dataclass. -/
structure KnowledgeEntry where
  key : String
  text : String
  source : String
  metadata : List (String × String) := []
deriving DecidableEq

/-- `SearchResult` dataclass; the score is a float, modelled as a real. -/
structure SearchResult where
  entry : KnowledgeEntry
  score : ℝ

/-- State of a `HowToIndex` object: the entry list, the `Counter`
`_doc_freq` (total function, absent token ⇒ 0), the sparse embeddings
(`dict.get` default 0 baked in), the norm list and the `_built` flag. -/
structure HowToIndex where
  entries : List KnowledgeEntry
  _doc_freq : String → ℕ
  _embeddings : List (String → ℝ)
  _norms : List ℝ
  _built : Bool

/-- `HowToIndex.__init__`: start from an (optional) initial entry list
with empty caches and the built flag down. -/
def HowToIndex.ofEntries (es : List KnowledgeEntry) : HowToIndex :=
  { entries := es, _doc_freq := fun _ => 0, _embeddings := [], _norms := [], _built := false }

/-- `add_entry`: append and drop the built flag; nothing else changes. -/
def HowToIndex.add_entry (idx : HowToIndex) (e : KnowledgeEntry) : HowToIndex :=
  { idx with entries := idx.entries ++ [e], _built := false }

/-! ### build -/

/-- One step of `self._doc_freq.update(set(_tokenize(entry.text)))`:
each token of the entry's token set gains one count. -/
def dfStep (acc : String → ℕ) (e : KnowledgeEntry) : String → ℕ :=
  fun t => if t ∈ (_tokenize e.text).dedup then acc t + 1 else acc t

/-- The document-frequency `Counter` accumulated over the entry list. -/
def buildDocFreq (es : List KnowledgeEntry) : String → ℕ :=
  es.foldl dfStep (fun _ => 0)

/-- The embedding dict built for one entry (with `dict.get`'s default for
absent tokens): for a token `t` of the entry with raw count `c` and
document length `L`, weight `(c / L) * log((1 + num_docs) / (1 + df t))`;
0 for tokens not in the entry. -/
noncomputable def entryEmbedding (numDocs : ℕ) (df : String → ℕ) (text : String) :
    String → ℝ :=
  fun t =>
    let tokens := _tokenize text
    if t ∈ tokens then
      ((tokens.count t : ℝ) / (tokens.length : ℝ)) *
        Real.log ((1 + (numDocs : ℝ)) / (1 + (df t : ℝ)))
    else 0

/-- `math.sqrt(sum(weight * weight for weight in embedding.values()))`:
the values of the embedding dict are indexed by the entry's distinct
tokens. -/
noncomputable def embeddingNorm (text : String) (w : String → ℝ) : ℝ :=
  Real.sqrt (∑ t ∈ (_tokenize text).toFinset, w t ^ 2)

/-- `build()`: recompute `_doc_freq`, `_embeddings` and `_norms` from
scratch and raise the built flag; an empty entry list just clears
everything. -/
noncomputable def HowToIndex.build (idx : HowToIndex) : HowToIndex :=
  if idx.entries.isEmpty then
    { idx with _doc_freq := fun _ => 0, _embeddings := [], _norms := [], _built := true }
  else
    let numDocs := idx.entries.length
    let df := buildDocFreq idx.entries
    { entries := idx.entries
      _doc_freq := df
      _embeddings := idx.entries.map (fun e => entryEmbedding numDocs df e.text)
      _norms := idx.entries.map (fun e =>
        let n := embeddingNorm e.text (entryEmbedding numDocs df e.text)
        if n = 0 then 1 else n)
      _built := true }

/-! ### query vectorization and search -/

/-- `_vectorize_query`: same TF-IDF formula against the current
`_doc_freq`, with `num_docs = len(self.entries) or 1`. -/
noncomputable def HowToIndex._vectorize_query (idx : HowToIndex) (text : String) :
    String → ℝ :=
  let numDocs := if idx.entries.length = 0 then 1 else idx.entries.length
  fun t =>
    let tokens := _tokenize text
    if t ∈ tokens then
      ((tokens.count t : ℝ) / (tokens.length : ℝ)) *
        Real.log ((1 + (numDocs : ℝ)) / (1 + (idx._doc_freq t : ℝ)))
    else 0

/-- The score list built by `search`'s main loop: one `SearchResult` per
element of `zip(self.entries, self._embeddings, self._norms)`, scoring
`dot / (query_norm * norm)` with the zero-`norm` fallback. -/
noncomputable def HowToIndex.scoreList (idx : HowToIndex) (query : String) :
    List SearchResult :=
  let query_vec := idx._vectorize_query query
  let qn0 := Real.sqrt (∑ t ∈ (_tokenize query).toFinset, query_vec t ^ 2)
  let query_norm := if qn0 = 0 then 1 else qn0
  (idx.entries.zip (idx._embeddings.zip idx._norms)).map (fun p =>
    let dot := ∑ t ∈ (_tokenize query).toFinset, query_vec t * p.2.1 t
    { entry := p.1
      score := if p.2.2 = (0 : ℝ) then 0 else dot / (query_norm * p.2.2) })

/-- The comparison realised by `scores.sort(key=lambda r: r.score,
reverse=True)`: `a` may precede `b` iff `a`'s score is not below `b`'s. -/
noncomputable def scoreLE (a b : SearchResult) : Bool :=
  decide (b.score ≤ a.score)

/-- `search(query, top_k)`: empty/whitespace query short-circuits to `[]`
with the state untouched; otherwise rebuild if the flag is down, return
`[]` on an empty entry list, and otherwise rank the score list (stable,
descending) and slice off the first `top_k`. -/
noncomputable def HowToIndex.search (idx : HowToIndex) (query : String) (top_k : Int) :
    HowToIndex × List SearchResult :=
  if (pyStrip query).isEmpty then (idx, [])
  else
    let idx1 := if idx._built then idx else idx.build
    if idx1.entries.isEmpty then (idx1, [])
    else
      (idx1, pyTakeSlice top_k ((idx1.scoreList query).mergeSort scoreLE))

/-! ### The scanning loop computes the maximal runs -/

theorem maximalRuns_nil (p : Char → Bool) : maximalRuns p [] = [] := by
  rw [maximalRuns.eq_def]

theorem maximalRuns_cons (p : Char → Bool) (c : Char) (cs : List Char) :
    maximalRuns p (c :: cs) =
      if p c then (c :: cs.takeWhile p) :: maximalRuns p (cs.dropWhile p)
      else maximalRuns p cs := by
  rw [maximalRuns.eq_def]

theorem scanRuns_spec (p : Char → Bool) :
    ∀ l : List Char,
      scanRuns p l none = maximalRuns p l ∧
      ∀ acc, scanRuns p l (some acc) =
        (acc.reverse ++ l.takeWhile p) :: maximalRuns p (l.dropWhile p) := by
  intro l
  induction l with
  | nil =>
      refine ⟨by simp [scanRuns, maximalRuns_nil], fun acc => ?_⟩
      simp [scanRuns, maximalRuns_nil]
  | cons c cs ih =>
      constructor
      · rw [maximalRuns_cons]
        cases hp : p c with
        | true =>
            simp only [scanRuns, hp, if_true, ih.2 [c], List.reverse_cons,
              List.reverse_nil, List.nil_append, List.cons_append]
        | false =>
            simp only [scanRuns, hp, if_false, ih.1, Bool.false_eq_true]
      · intro acc
        cases hp : p c with
        | true =>
            simp only [scanRuns, hp, if_true, ih.2 (c :: acc), List.reverse_cons,
              List.takeWhile_cons, List.dropWhile_cons, hp, List.append_assoc,
              List.cons_append, List.nil_append]
        | false =>
            simp only [scanRuns, hp, if_false, ih.1, List.takeWhile_cons,
              List.dropWhile_cons, Bool.false_eq_true, List.append_nil,
              maximalRuns_cons]

theorem scanRuns_none_eq (p : Char → Bool) (l : List Char) :
    scanRuns p l none = maximalRuns p l :=
  (scanRuns_spec p l).1

/-! ### Document frequency: the fold equals the per-token entry count -/

theorem foldl_dfStep (es : List KnowledgeEntry) :
    ∀ (acc : String → ℕ) (t : String),
      es.foldl dfStep acc t =
        acc t + es.countP (fun e => decide (t ∈ _tokenize e.text)) := by
  induction es with
  | nil => intro acc t; simp
  | cons e es ih =>
      intro acc t
      rw [List.foldl_cons, ih, List.countP_cons]
      by_cases h : t ∈ _tokenize e.text
      · simp [dfStep, List.mem_dedup, h]; omega
      · simp [dfStep, List.mem_dedup, h]

/-- `_doc_freq[t]` after a build counts the entries whose token set
contains `t` (once per entry, not per occurrence). -/
theorem buildDocFreq_eq (es : List KnowledgeEntry) (t : String) :
    buildDocFreq es t = es.countP (fun e => decide (t ∈ _tokenize e.text)) := by
  simpa using foldl_dfStep es (fun _ => 0) t

theorem buildDocFreq_le_length (es : List KnowledgeEntry) (t : String) :
    buildDocFreq es t ≤ es.length := by
  rw [buildDocFreq_eq]; exact List.countP_le_length _

/-! ### Projections of `build` -/

theorem build_entries (idx : HowToIndex) : (idx.build).entries = idx.entries := by
  unfold HowToIndex.build; split <;> rfl

theorem build_built (idx : HowToIndex) : (idx.build)._built = true := by
  unfold HowToIndex.build; split <;> rfl

theorem build_doc_freq (idx : HowToIndex) (h : idx.entries ≠ []) :
    (idx.build)._doc_freq = buildDocFreq idx.entries := by
  unfold HowToIndex.build
  rw [if_neg (by simp [List.isEmpty_iff, h])]

theorem build_embeddings (idx : HowToIndex) (h : idx.entries ≠ []) :
    (idx.build)._embeddings =
      idx.entries.map
        (fun e => entryEmbedding idx.entries.length (buildDocFreq idx.entries) e.text) := by
  unfold HowToIndex.build
  rw [if_neg (by simp [List.isEmpty_iff, h])]

theorem build_norms (idx : HowToIndex) (h : idx.entries ≠ []) :
    (idx.build)._norms =
      idx.entries.map (fun e =>
        let n := embeddingNorm e.text
          (entryEmbedding idx.entries.length (buildDocFreq idx.entries) e.text)
        if n = 0 then 1 else n) := by
  unfold HowToIndex.build
  rw [if_neg (by simp [List.isEmpty_iff, h])]

theorem build_embeddings_empty (idx : HowToIndex) (h : idx.entries = []) :
    (idx.build)._embeddings = [] := by
  unfold HowToIndex.build
  rw [if_pos (by simp [List.isEmpty_iff, h])]

theorem build_norms_empty (idx : HowToIndex) (h : idx.entries = []) :
    (idx.build)._norms = [] := by
  unfold HowToIndex.build
  rw [if_pos (by simp [List.isEmpty_iff, h])]

/-! ### Shape of the score list -/

theorem zip_map_map {α : Type _} {β : Type _} {γ : Type _}
    (l : List α) (f : α → β) (g : α → γ) :
    l.zip ((l.map f).zip (l.map g)) = l.map (fun a => (a, f a, g a)) := by
  induction l with
  | nil => rfl
  | cons a l ih => simp [ih]

/-- On any index whose embeddings and norms are per-entry maps (as after
`build`), the score loop produces exactly one result per entry, in entry
order. -/
theorem scoreList_eq (idx : HowToIndex) (q : String)
    (F : KnowledgeEntry → String → ℝ) (G : KnowledgeEntry → ℝ)
    (hE : idx._embeddings = idx.entries.map F)
    (hN : idx._norms = idx.entries.map G) :
    idx.scoreList q = idx.entries.map (fun e =>
      { entry := e
        score :=
          if G e = (0 : ℝ) then 0
          else (∑ t ∈ (_tokenize q).toFinset, idx._vectorize_query q t * F e t) /
            ((if Real.sqrt (∑ t ∈ (_tokenize q).toFinset, idx._vectorize_query q t ^ 2) = 0
              then 1
              else Real.sqrt (∑ t ∈ (_tokenize q).toFinset, idx._vectorize_query q t ^ 2)) *
              G e) }) := by
  unfold HowToIndex.scoreList
  rw [hE, hN, zip_map_map, List.map_map]
  rfl

/-! ### Unfolding `search` -/

theorem search_whitespace (idx : HowToIndex) (q : String) (k : Int)
    (h : (pyStrip q).isEmpty = true) : idx.search q k = (idx, []) := by
  unfold HowToIndex.search
  rw [if_pos h]

theorem search_dirty (idx : HowToIndex) (q : String) (k : Int)
    (hq : (pyStrip q).isEmpty = false) (hb : idx._built = false)
    (hne : idx.entries ≠ []) :
    idx.search q k =
      (idx.build, pyTakeSlice k ((idx.build.scoreList q).mergeSort scoreLE)) := by
  unfold HowToIndex.search
  simp only [hq, Bool.false_eq_true, if_false, hb, List.isEmpty_iff, build_entries]
  rw [if_neg hne]

theorem search_dirty_empty (idx : HowToIndex) (q : String) (k : Int)
    (hq : (pyStrip q).isEmpty = false) (hb : idx._built = false)
    (hne : idx.entries = []) :
    idx.search q k = (idx.build, []) := by
  unfold HowToIndex.search
  simp only [hq, Bool.false_eq_true, if_false, hb, List.isEmpty_iff, build_entries]
  rw [if_pos hne]

theorem search_built (idx : HowToIndex) (q : String) (k : Int)
    (hq : (pyStrip q).isEmpty = false) (hb : idx._built = true)
    (hne : idx.entries ≠ []) :
    idx.search q k =
      (idx, pyTakeSlice k ((idx.scoreList q).mergeSort scoreLE)) := by
  unfold HowToIndex.search
  simp only [hq, Bool.false_eq_true, if_false, hb, if_true, List.isEmpty_iff]
  rw [if_neg hne]

theorem search_built_empty (idx : HowToIndex) (q : String) (k : Int)
    (hq : (pyStrip q).isEmpty = false) (hb : idx._built = true)
    (hne : idx.entries = []) :
    idx.search q k = (idx, []) := by
  unfold HowToIndex.search
  simp only [hq, Bool.false_eq_true, if_false, hb, if_true, List.isEmpty_iff]
  rw [if_pos hne]

/-! ### Sorting: descending by score, stable -/

theorem scoreLE_trans (a b c : SearchResult) :
    scoreLE a b → scoreLE b c → scoreLE a c := by
  simp only [scoreLE, decide_eq_true_eq]
  exact fun h1 h2 => le_trans h2 h1

theorem scoreLE_total (a b : SearchResult) : scoreLE a b || scoreLE b a := by
  simp only [scoreLE, Bool.or_eq_true, decide_eq_true_eq]
  exact le_total b.score a.score

/-- The ranked list is sorted by non-increasing score. -/
theorem mergeSort_scoreLE_sorted (l : List SearchResult) :
    (l.mergeSort scoreLE).Pairwise (fun a b => b.score ≤ a.score) := by
  have h := List.sorted_mergeSort scoreLE_trans scoreLE_total l
  exact h.imp (by intro a b hab; simpa [scoreLE] using hab)

/-- Tie-breaking by original position: the lexicographic comparison
"strictly higher score first, else original index order". -/
noncomputable def stableLex (x y : ℕ × SearchResult) : Bool :=
  decide (y.2.score < x.2.score ∨ (x.2.score = y.2.score ∧ x.1 ≤ y.1))

theorem stableLex_eq_enumLE : stableLex = List.enumLE scoreLE := by
  funext x y
  simp only [stableLex, List.enumLE, scoreLE]
  by_cases h1 : y.2.score ≤ x.2.score
  · by_cases h2 : x.2.score ≤ y.2.score
    · have he : x.2.score = y.2.score := le_antisymm h2 h1
      simp [h1, h2, he]
    · have hlt : y.2.score < x.2.score := lt_of_le_not_le h1 h2
      simp [h1, h2, hlt]
  · have h2 : x.2.score ≤ y.2.score := (le_total y.2.score x.2.score).resolve_left h1
    have hlt : x.2.score < y.2.score := lt_of_le_not_le h2 h1
    simp [h1, not_lt.mpr h2, ne_of_lt hlt]

/-- Stability: the sort used by `search` coincides with sorting the
position-tagged list by the total lexicographic order (score strictly
descending, ties by original position) and then dropping the tags. -/
theorem mergeSort_scoreLE_stable (l : List SearchResult) :
    l.mergeSort scoreLE = ((l.enum).mergeSort stableLex).map (fun x => x.2) := by
  rw [stableLex_eq_enumLE, List.mergeSort_enum]

/-! ### Lengths after build -/

theorem build_embeddings_length (idx : HowToIndex) :
    (idx.build)._embeddings.length = idx.entries.length := by
  by_cases h : idx.entries = []
  · simp [build_embeddings_empty _ h, h]
  · simp [build_embeddings _ h]

theorem build_norms_length (idx : HowToIndex) :
    (idx.build)._norms.length = idx.entries.length := by
  by_cases h : idx.entries = []
  · simp [build_norms_empty _ h, h]
  · simp [build_norms _ h]

/-! ### Concrete entries used by witnesses and counterexamples -/

def entA : KnowledgeEntry := ⟨"A", "build a wooden shelter", "doc", []⟩

def entB : KnowledgeEntry := ⟨"B", "smelt iron ore", "doc", []⟩

def oakEntry : KnowledgeEntry := ⟨"oak-doc", "oak oak oak", "src", []⟩

/-! ### C6 -/

/-- C6: `search` is total (the embedding is a total function), an empty
or whitespace-only query returns `[]` immediately with the state — in
particular the built flag — untouched (no rebuild), and a search on an
index with zero entries returns `[]` rather than an error. -/
theorem C6_search_degenerate_queries (idx : HowToIndex) (q : String) (k : Int) :
    ((pyStrip q).isEmpty = true → idx.search q k = (idx, [])) ∧
    (idx.entries = [] → (idx.search q k).2 = []) := by
  refine ⟨fun h => search_whitespace idx q k h, fun he => ?_⟩
  by_cases hq : (pyStrip q).isEmpty
  · rw [search_whitespace idx q k hq]
  · replace hq : (pyStrip q).isEmpty = false := by simpa using hq
    cases hb : idx._built
    · rw [search_dirty_empty idx q k hq hb he]
    · rw [search_built_empty idx q k hq hb he]

theorem C6_witness :
    (HowToIndex.ofEntries []).search " " 3 = (HowToIndex.ofEntries [], []) ∧
    ((HowToIndex.ofEntries []).search "anything" 3).2 = [] :=
  ⟨(C6_search_degenerate_queries (HowToIndex.ofEntries []) " " 3).1 (by decide),
   (C6_search_degenerate_queries (HowToIndex.ofEntries []) "anything" 3).2 rfl⟩

/-! ### C8 -/

/-- C8 as stated is false: `search` does NOT rebuild whenever the flag is
down — a whitespace-only query returns before the rebuild check.  Here
the index is dirty (flag `false`), `search " "` runs, and the state keeps
the flag down (no rebuild happened), while the claim's "search triggers a
rebuild if and only if the flag is not currently built" demands one. -/
theorem C8_counterexample :
    (HowToIndex.ofEntries [entA])._built = false ∧
    ((HowToIndex.ofEntries [entA]).search " " 3).1._built = false := by
  refine ⟨rfl, ?_⟩
  rw [search_whitespace (HowToIndex.ofEntries [entA]) " " 3 (by decide)]
  rfl

/-- C8 amended: construction and `add_entry` leave the flag down
(`add_entry` only appends and clears the flag, recomputing nothing),
`build` always raises it, and `search` rebuilds exactly when the query
has non-whitespace content and the flag is down. -/
theorem C8_state_machine (es : List KnowledgeEntry) (idx : HowToIndex)
    (e : KnowledgeEntry) (q : String) (k : Int) :
    (HowToIndex.ofEntries es)._built = false ∧
    idx.add_entry e = { idx with entries := idx.entries ++ [e], _built := false } ∧
    (idx.build)._built = true ∧
    (idx.search q k).1 =
      (if (pyStrip q).isEmpty then idx
       else if idx._built then idx else idx.build) := by
  refine ⟨rfl, rfl, build_built idx, ?_⟩
  by_cases hq : (pyStrip q).isEmpty
  · rw [search_whitespace idx q k hq, if_pos hq]
  · replace hq : (pyStrip q).isEmpty = false := by simpa using hq
    rw [if_neg (by simp [hq])]
    cases hb : idx._built with
    | false =>
        by_cases he : idx.entries = []
        · rw [search_dirty_empty idx q k hq hb he]; simp
        · rw [search_dirty idx q k hq hb he]; simp
    | true =>
        by_cases he : idx.entries = []
        · rw [search_built_empty idx q k hq hb he]; simp
        · rw [search_built idx q k hq hb he]; simp

/-! ### C5: the tokenizer -/

/-- Every run the scanner emits is a non-empty run of class characters. -/
theorem scanRuns_runs (p : Char → Bool) :
    ∀ l : List Char,
      (∀ r ∈ scanRuns p l none, r ≠ [] ∧ r.all p) ∧
      (∀ acc, acc ≠ [] → acc.all p →
        ∀ r ∈ scanRuns p l (some acc), r ≠ [] ∧ r.all p) := by
  intro l
  induction l with
  | nil =>
      refine ⟨by simp [scanRuns], fun acc hne hall r hr => ?_⟩
      simp only [scanRuns, List.mem_singleton] at hr
      subst hr
      exact ⟨by simpa using hne, by simpa using hall⟩
  | cons c cs ih =>
      constructor
      · intro r hr
        cases hp : p c with
        | true =>
            simp only [scanRuns, hp, if_true] at hr
            exact ih.2 [c] (by simp) (by simp [hp]) r hr
        | false =>
            simp only [scanRuns, hp, Bool.false_eq_true, if_false] at hr
            exact ih.1 r hr
      · intro acc hne hall r hr
        cases hp : p c with
        | true =>
            simp only [scanRuns, hp, if_true] at hr
            exact ih.2 (c :: acc) (by simp) (by simp [hp, List.all_eq_true] at hall ⊢; exact hall) r hr
        | false =>
            simp only [scanRuns, hp, Bool.false_eq_true, if_false, List.mem_cons] at hr
            rcases hr with hr | hr
            · subst hr
              exact ⟨by simpa using hne, by simpa using hall⟩
            · exact ih.1 r hr

/-- The behaviour claim C5 asserts, written out from the spec's words:
tokens are the maximal runs of ASCII letters and digits, each lowercased
by the ASCII case map. -/
def asciiAlnum (c : Char) : Bool :=
  ('a' ≤ c && c ≤ 'z') || ('A' ≤ c && c ≤ 'Z') || ('0' ≤ c && c ≤ '9')

/-- ASCII-only lowercasing, as the spec's words imply. -/
def asciiLowerChar (c : Char) : Char :=
  if 'A' ≤ c && c ≤ 'Z' then Char.ofNat (c.toNat + 32) else c

/-- The tokenizer claim C5 describes, assembled from the spec's words. -/
def asciiRunsLower (s : String) : List String :=
  (maximalRuns asciiAlnum s.data).map (fun r => String.mk (r.map asciiLowerChar))

/-- C5 as stated is false: on the input "ſ" (U+017F, LATIN SMALL LETTER
LONG S) the code's tokenizer emits the non-ASCII token "ſ" — CPython's
case-insensitive `[a-z0-9]` matches ſ because it case-folds to `s` —
while the claimed ASCII-runs behaviour emits no token at all. -/
theorem C5_counterexample : _tokenize "ſ" ≠ asciiRunsLower "ſ" := by
  unfold asciiRunsLower
  rw [← scanRuns_none_eq]
  decide

/-- C5 amended: the tokenizer returns, in order of appearance, the
lowercase images of the maximal runs of characters matched by the
case-insensitive class `[a-z0-9]` — the ASCII letters and digits
together with the Unicode case-equivalents İ, ı, ſ and K (so non-ASCII
characters can appear in tokens); the empty string yields the empty
sequence; every token is the lowercasing of a non-empty run of class
characters.  (Determinism and statelessness are inherent: the embedding
is a pure function.) -/
theorem C5_tokenizer_runs (s : String) :
    _tokenize s =
      (maximalRuns wordChar s.data).map (fun r => String.mk (r.flatMap pyLowerChar)) ∧
    _tokenize "" = [] ∧
    ∀ tok ∈ _tokenize s, ∃ run,
      run ≠ [] ∧ run.all wordChar ∧ tok = String.mk (run.flatMap pyLowerChar) := by
  refine ⟨by unfold _tokenize; rw [scanRuns_none_eq], rfl, ?_⟩
  intro tok htok
  unfold _tokenize at htok
  rcases List.mem_map.1 htok with ⟨run, hrun, hEq⟩
  have hprops := (scanRuns_runs wordChar s.data).1 run hrun
  exact ⟨run, hprops.1, hprops.2, hEq.symm⟩

theorem C5_tokenizer_runs_witness :
    ∃ run, run ≠ [] ∧ run.all wordChar ∧ "oak" = String.mk (run.flatMap pyLowerChar) :=
  (C5_tokenizer_runs "Oak!").2.2 "oak" (by decide)

/-! ### C9: norms after build are positive and the fallback is dead -/

/-- The score computation with the zero-norm fallback branch removed
(claim C9 says the branch is unreachable after a build): every score is
the plain cosine division. -/
noncomputable def scoreList_noFallback (idx : HowToIndex) (query : String) :
    List SearchResult :=
  let query_vec := idx._vectorize_query query
  let qn0 := Real.sqrt (∑ t ∈ (_tokenize query).toFinset, query_vec t ^ 2)
  let query_norm := if qn0 = 0 then 1 else qn0
  (idx.entries.zip (idx._embeddings.zip idx._norms)).map (fun p =>
    let dot := ∑ t ∈ (_tokenize query).toFinset, query_vec t * p.2.1 t
    { entry := p.1, score := dot / (query_norm * p.2.2) })

theorem build_norms_pos (idx : HowToIndex) :
    (idx.build)._norms.Forall (fun n => 0 < n) := by
  rw [List.forall_iff_forall_mem]
  intro n hn
  by_cases h : idx.entries = []
  · rw [build_norms_empty _ h] at hn
    simp at hn
  · rw [build_norms _ h] at hn
    rcases List.mem_map.1 hn with ⟨e, -, hEq⟩
    simp only at hEq
    subst hEq
    set ν := embeddingNorm e.text
      (entryEmbedding idx.entries.length (buildDocFreq idx.entries) e.text) with hν
    by_cases h0 : ν = 0
    · simp [h0]
    · have : 0 ≤ ν := Real.sqrt_nonneg _
      simp [h0, lt_of_le_of_ne this (Ne.symm h0)]

/-- C9: after every completed build the norm list matches the entry list
in length and every stored norm is strictly positive (a true zero norm
was replaced by 1.0); consequently the zero-norm fallback branch of
`search`'s scoring loop is unreachable on a freshly built index — the
score list equals the one computed with the plain cosine division — and
the division never divides by zero. -/
theorem C9_norms_positive_after_build (idx : HowToIndex) (q : String) :
    (idx.build)._norms.length = (idx.build).entries.length ∧
    (idx.build)._norms.Forall (fun n => 0 < n) ∧
    (idx.build).scoreList q = scoreList_noFallback (idx.build) q := by
  refine ⟨by rw [build_norms_length, build_entries], build_norms_pos idx, ?_⟩
  unfold HowToIndex.scoreList scoreList_noFallback
  apply List.map_congr_left
  intro p hp
  have hmem : p.2.2 ∈ (idx.build)._norms :=
    (List.of_mem_zip (List.of_mem_zip hp).2).2
  have hpos : 0 < p.2.2 := by
    have := build_norms_pos idx
    rw [List.forall_iff_forall_mem] at this
    exact this _ hmem
  have hne : p.2.2 ≠ (0 : ℝ) := ne_of_gt hpos
  simp [hne]

/-! ### C1: stored weights and norms after build -/

/-- C1: in a built index over a non-empty entry list, the stored weight
of each token `t` occurring in entry `i` (raw count `c`, tokenization
length `L`) is `(c / L) * ln((1 + N) / (1 + df t))`, where `df t` counts
the entries in whose token set `t` appears (once per entry); the stored
norm of the entry is the square root of the sum of its squared weights,
with 1.0 substituted when that square root is exactly 0. -/
theorem C1_tfidf_weights (es : List KnowledgeEntry) (hne : es ≠ [])
    (i : ℕ) (hi : i < es.length) (t : String)
    (ht : t ∈ _tokenize es[i].text) :
    ∃ w : String → ℝ,
      ((HowToIndex.ofEntries es).build)._embeddings[i]? = some w ∧
      w t = (((_tokenize es[i].text).count t : ℝ) /
              ((_tokenize es[i].text).length : ℝ)) *
            Real.log ((1 + (es.length : ℝ)) /
              (1 + ((es.countP (fun e => decide (t ∈ (_tokenize e.text).toFinset)) : ℕ) : ℝ))) ∧
      ((HowToIndex.ofEntries es).build)._norms[i]? = some
        (if Real.sqrt (∑ u ∈ (_tokenize es[i].text).toFinset, w u ^ 2) = 0 then 1
         else Real.sqrt (∑ u ∈ (_tokenize es[i].text).toFinset, w u ^ 2)) := by
  have hents : (HowToIndex.ofEntries es).entries = es := rfl
  have hdf : ∀ u : String,
      buildDocFreq es u = es.countP (fun e => decide (u ∈ (_tokenize e.text).toFinset)) := by
    intro u
    rw [buildDocFreq_eq]
    congr 1
    funext e
    simp [List.mem_toFinset]
  refine ⟨entryEmbedding es.length (buildDocFreq es) es[i].text, ?_, ?_, ?_⟩
  · rw [build_embeddings _ (by rw [hents]; exact hne)]
    rw [hents]
    simp [List.getElem?_map, List.getElem?_eq_getElem hi]
  · unfold entryEmbedding
    simp only [ht, if_true, hdf t]
  · rw [build_norms _ (by rw [hents]; exact hne)]
    rw [hents]
    simp only [List.getElem?_map, List.getElem?_eq_getElem hi, Option.map_some]
    unfold embeddingNorm
    rfl

theorem C1_tfidf_weights_witness :
    ∃ w : String → ℝ,
      ((HowToIndex.ofEntries [entA, entB]).build)._embeddings[0]? = some w ∧
      w "wooden" = (((_tokenize [entA, entB][0].text).count "wooden" : ℝ) /
              ((_tokenize [entA, entB][0].text).length : ℝ)) *
            Real.log ((1 + (([entA, entB] : List KnowledgeEntry).length : ℝ)) /
              (1 + (([entA, entB].countP
                  (fun e => decide ("wooden" ∈ (_tokenize e.text).toFinset)) : ℕ) : ℝ))) ∧
      ((HowToIndex.ofEntries [entA, entB]).build)._norms[0]? = some
        (if Real.sqrt (∑ u ∈ (_tokenize [entA, entB][0].text).toFinset, w u ^ 2) = 0 then 1
         else Real.sqrt (∑ u ∈ (_tokenize [entA, entB][0].text).toFinset, w u ^ 2)) :=
  C1_tfidf_weights [entA, entB] (by decide) 0 (by decide) "wooden" (by decide)

/-! ### Score lists over a freshly built index -/

theorem built_embeddings_map (es : List KnowledgeEntry) (hne : es ≠ []) :
    ((HowToIndex.ofEntries es).build)._embeddings =
      ((HowToIndex.ofEntries es).build).entries.map
        (fun e => entryEmbedding es.length (buildDocFreq es) e.text) := by
  rw [build_entries]
  exact build_embeddings _ hne

theorem built_norms_map (es : List KnowledgeEntry) (hne : es ≠ []) :
    ((HowToIndex.ofEntries es).build)._norms =
      ((HowToIndex.ofEntries es).build).entries.map (fun e =>
        let n := embeddingNorm e.text (entryEmbedding es.length (buildDocFreq es) e.text)
        if n = 0 then 1 else n) := by
  rw [build_entries]
  exact build_norms _ hne

theorem built_scoreList_entries (es : List KnowledgeEntry) (hne : es ≠ []) (q : String) :
    ((((HowToIndex.ofEntries es).build).scoreList q).map (fun r => r.entry)) = es := by
  rw [scoreList_eq _ q _ _ (built_embeddings_map es hne) (built_norms_map es hne)]
  rw [List.map_map]
  have : ((HowToIndex.ofEntries es).build).entries = es := build_entries _
  rw [this]
  exact (List.map_congr_left (fun a ha => rfl)).trans (List.map_id es)

theorem built_scoreList_length (es : List KnowledgeEntry) (hne : es ≠ []) (q : String) :
    (((HowToIndex.ofEntries es).build).scoreList q).length = es.length := by
  have h := congrArg List.length (built_scoreList_entries es hne q)
  simpa using h

/-- A query with no tokens scores 0 against every entry. -/
theorem scoreList_no_tokens (idx : HowToIndex) (q : String)
    (htok : _tokenize q = [])
    (F : KnowledgeEntry → String → ℝ) (G : KnowledgeEntry → ℝ)
    (hE : idx._embeddings = idx.entries.map F)
    (hN : idx._norms = idx.entries.map G) :
    idx.scoreList q = idx.entries.map (fun e => { entry := e, score := (0 : ℝ) }) := by
  rw [scoreList_eq idx q F G hE hN]
  apply List.map_congr_left
  intro e he
  simp [htok, zero_div]

/-- Length of the ranked, sliced result on a two-entry corpus with
`top_k = -1`: Python's negative slice keeps one element. -/
theorem search2_neg1_len (q : String) (hq : (pyStrip q).isEmpty = false) :
    ((HowToIndex.ofEntries [entA, entB]).search q (-1)).2.length = 1 := by
  rw [search_dirty _ q (-1) hq rfl (by decide)]
  have hlen : ((((HowToIndex.ofEntries [entA, entB]).build).scoreList q).mergeSort
      scoreLE).length = 2 := by
    rw [List.length_mergeSort, built_scoreList_length [entA, entB] (by decide) q]
    rfl
  show (pyTakeSlice (-1) _).length = 1
  unfold pyTakeSlice
  rw [if_neg (by decide), List.length_take, hlen]
  rfl

/-! ### C2 -/

/-- C2 as stated is false for negative `top_k`: on a two-entry corpus
with `top_k = -1` the search returns one result, not "at most top_k"
(Python's negative prefix slice keeps `len - 1` elements). -/
theorem C2_counterexample :
    ((HowToIndex.ofEntries [entA, entB]).search "a" (-1)).2.length = 1 ∧
    ¬((((HowToIndex.ofEntries [entA, entB]).search "a" (-1)).2.length : ℤ) ≤ -1) := by
  have h := search2_neg1_len "a" (by decide)
  refine ⟨h, ?_⟩
  rw [h]
  decide

/-- C2 amended: for every non-empty corpus, every non-whitespace query
and every `top_k ≥ 0`, the pre-truncation score list has exactly one
result per entry in entry order; the returned results are the first
`top_k` of the ranked list; they are sorted by non-increasing score; the
ranking is stable (it equals the lexicographic sort of the
position-tagged list: strictly higher score first, ties by original
position); and the result count is `min top_k N`.  Totality of the
embedding shows `search` never raises. -/
theorem C2_search_ranking (es : List KnowledgeEntry) (q : String) (k : Int)
    (hne : es ≠ []) (hq : (pyStrip q).isEmpty = false) (hk : 0 ≤ k) :
    ((((HowToIndex.ofEntries es).build).scoreList q).map (fun r => r.entry)) = es ∧
    ((HowToIndex.ofEntries es).search q k).2 =
      ((((HowToIndex.ofEntries es).build).scoreList q).mergeSort scoreLE).take k.toNat ∧
    ((HowToIndex.ofEntries es).search q k).2.Pairwise (fun a b => b.score ≤ a.score) ∧
    ((((HowToIndex.ofEntries es).build).scoreList q).mergeSort scoreLE) =
      (((((HowToIndex.ofEntries es).build).scoreList q).enum).mergeSort stableLex).map
        (fun x => x.2) ∧
    ((HowToIndex.ofEntries es).search q k).2.length = min k.toNat es.length := by
  have hres : ((HowToIndex.ofEntries es).search q k).2 =
      ((((HowToIndex.ofEntries es).build).scoreList q).mergeSort scoreLE).take k.toNat := by
    rw [search_dirty _ q k hq rfl hne]
    show pyTakeSlice k _ = _
    unfold pyTakeSlice
    rw [if_pos hk]
  refine ⟨built_scoreList_entries es hne q, hres, ?_, mergeSort_scoreLE_stable _, ?_⟩
  · rw [hres]
    exact (mergeSort_scoreLE_sorted _).sublist (List.take_sublist _ _)
  · rw [hres, List.length_take, List.length_mergeSort,
      built_scoreList_length es hne q]

theorem C2_search_ranking_witness :
    ((((HowToIndex.ofEntries [entA, entB]).build).scoreList "a").map (fun r => r.entry)) =
      [entA, entB] ∧
    ((HowToIndex.ofEntries [entA, entB]).search "a" 3).2 =
      ((((HowToIndex.ofEntries [entA, entB]).build).scoreList "a").mergeSort scoreLE).take
        (3 : Int).toNat ∧
    ((HowToIndex.ofEntries [entA, entB]).search "a" 3).2.Pairwise
      (fun a b => b.score ≤ a.score) ∧
    ((((HowToIndex.ofEntries [entA, entB]).build).scoreList "a").mergeSort scoreLE) =
      (((((HowToIndex.ofEntries [entA, entB]).build).scoreList "a").enum).mergeSort
        stableLex).map (fun x => x.2) ∧
    ((HowToIndex.ofEntries [entA, entB]).search "a" 3).2.length =
      min (3 : Int).toNat ([entA, entB] : List KnowledgeEntry).length :=
  C2_search_ranking [entA, entB] "a" 3 (by decide) (by decide) (by decide)

/-! ### C4 -/

/-- C4 as stated is false: a negative `top_k` does not yield an empty
result — on a two-entry corpus `top_k = -1` returns one result, because
Python's `scores[:top_k]` slice with a negative bound keeps the first
`len + top_k` elements. -/
theorem C4_counterexample :
    ((HowToIndex.ofEntries [entA, entB]).search "shelter" (-1)).2 ≠ [] := by
  intro hnil
  have h := search2_neg1_len "shelter" (by decide)
  rw [hnil] at h
  simp at h

/-- C4 amended: `top_k = 0` returns the empty sequence; a negative
`top_k` follows Python's slice semantics and returns the first
`max(N + top_k, 0)` ranked results (so the result is empty exactly when
`top_k = 0` or `top_k ≤ -N`); no error is raised either way. -/
theorem C4_nonpositive_topk (es : List KnowledgeEntry) (q : String) (k : Int)
    (hq : (pyStrip q).isEmpty = false) (hk : k ≤ 0) :
    (k = 0 → ((HowToIndex.ofEntries es).search q k).2 = []) ∧
    (k < 0 → ((HowToIndex.ofEntries es).search q k).2.length =
      ((es.length : ℤ) + k).toNat) := by
  by_cases hne : es = []
  · subst hne
    rw [search_dirty_empty _ q k hq rfl rfl]
    refine ⟨fun _ => rfl, fun hklt => ?_⟩
    show (0 : ℕ) = _
    rw [Int.toNat_of_nonpos (by simpa using le_of_lt hklt)]
  · rw [search_dirty _ q k hq rfl hne]
    have hlen : ((((HowToIndex.ofEntries es).build).scoreList q).mergeSort
        scoreLE).length = es.length := by
      rw [List.length_mergeSort, built_scoreList_length es hne q]
    constructor
    · intro hk0
      subst hk0
      show pyTakeSlice 0
        ((((HowToIndex.ofEntries es).build).scoreList q).mergeSort scoreLE) = []
      unfold pyTakeSlice
      rw [if_pos le_rfl]
      simp
    · intro hklt
      show (pyTakeSlice k _).length = _
      unfold pyTakeSlice
      rw [if_neg (not_le.mpr hklt), List.length_take, hlen]
      have hle : ((es.length : ℤ) + k).toNat ≤ es.length := by
        omega
      omega

theorem C4_nonpositive_topk_witness :
    ((-2 : Int) = 0 → ((HowToIndex.ofEntries [entA]).search "ore" (-2)).2 = []) ∧
    ((-2 : Int) < 0 → ((HowToIndex.ofEntries [entA]).search "ore" (-2)).2.length =
      ((([entA] : List KnowledgeEntry).length : ℤ) + (-2)).toNat) :=
  C4_nonpositive_topk [entA] "ore" (-2) (by decide) (by decide)

/-! ### C10 -/

/-- C10 as stated is false for negative `top_k`: on a two-entry corpus
the query "!!!" with `top_k = -1` returns 1 result, while
`min(top_k, N) = -1` is not the returned count. -/
theorem C10_counterexample :
    ((HowToIndex.ofEntries [entA, entB]).search "!!!" (-1)).2.length = 1 ∧
    ¬((((HowToIndex.ofEntries [entA, entB]).search "!!!" (-1)).2.length : ℤ) =
      min (-1 : ℤ) 2) := by
  have h := search2_neg1_len "!!!" (by decide)
  refine ⟨h, ?_⟩
  rw [h]
  decide

/-- C10 amended: a query that strips to something non-empty but contains
no character of the tokenizer's class (for example "!!!") is not treated
as an empty query: on a non-empty corpus, for `top_k ≥ 0`, search
returns `min(top_k, N)` results, each with score exactly 0, and does not
raise — the query vector is empty, every dot product is the empty sum 0,
and the query's zero norm is substituted by 1.0. -/
theorem C10_no_token_query (es : List KnowledgeEntry) (q : String) (k : Int)
    (hne : es ≠ []) (hq : (pyStrip q).isEmpty = false)
    (htok : _tokenize q = []) (hk : 0 ≤ k) :
    ((HowToIndex.ofEntries es).search q k).2.length = min k.toNat es.length ∧
    ((HowToIndex.ofEntries es).search q k).2.Forall (fun r => r.score = 0) := by
  have hzero : ((HowToIndex.ofEntries es).build).scoreList q =
      ((HowToIndex.ofEntries es).build).entries.map
        (fun e => { entry := e, score := (0 : ℝ) }) :=
    scoreList_no_tokens _ q htok _ _ (built_embeddings_map es hne) (built_norms_map es hne)
  rw [search_dirty _ q k hq rfl hne]
  have hlen : ((((HowToIndex.ofEntries es).build).scoreList q).mergeSort
      scoreLE).length = es.length := by
    rw [List.length_mergeSort, built_scoreList_length es hne q]
  constructor
  · show (pyTakeSlice k _).length = _
    unfold pyTakeSlice
    rw [if_pos hk, List.length_take, hlen]
  · rw [List.forall_iff_forall_mem]
    intro r hr
    show r.score = 0
    have hr1 : r ∈ (((HowToIndex.ofEntries es).build).scoreList q).mergeSort scoreLE := by
      unfold pyTakeSlice at hr
      rw [if_pos hk] at hr
      exact (List.take_sublist _ _).subset hr
    have hr2 : r ∈ ((HowToIndex.ofEntries es).build).scoreList q :=
      List.mem_mergeSort.1 hr1
    rw [hzero] at hr2
    rcases List.mem_map.1 hr2 with ⟨e, -, hEq⟩
    rw [← hEq]

theorem C10_no_token_query_witness :
    ((HowToIndex.ofEntries [entA, entB]).search "!!!" 2).2.length =
      min (2 : Int).toNat ([entA, entB] : List KnowledgeEntry).length ∧
    ((HowToIndex.ofEntries [entA, entB]).search "!!!" 2).2.Forall
      (fun r => r.score = 0) :=
  C10_no_token_query [entA, entB] "!!!" 2 (by decide) (by decide) (by decide) (by decide)

/-! ### C3: the single-document "oak oak oak" scenario -/

/-- On a built non-empty index, the query vectorizer is the same TF-IDF
map as the entry embedder (`num_docs = len(entries) or 1` collapses to
`N`). -/
theorem vectorize_query_built (es : List KnowledgeEntry) (hne : es ≠ []) (q : String) :
    ((HowToIndex.ofEntries es).build)._vectorize_query q =
      entryEmbedding es.length (buildDocFreq es) q := by
  funext t
  unfold HowToIndex._vectorize_query entryEmbedding
  rw [build_doc_freq _ hne, build_entries]
  have hlen : (HowToIndex.ofEntries es).entries = es := rfl
  rw [hlen, if_neg (fun h => hne (List.length_eq_zero.mp h))]

theorem oak_emb_zero :
    ∀ t, entryEmbedding 1 (buildDocFreq [oakEntry]) "oak oak oak" t = 0 := by
  intro t
  unfold entryEmbedding
  by_cases ht : t ∈ _tokenize "oak oak oak"
  · have ht' : t = "oak" := by
      have htok : _tokenize "oak oak oak" = ["oak", "oak", "oak"] := by decide
      rw [htok] at ht
      simpa using ht
    subst ht'
    have hdf : buildDocFreq [oakEntry] "oak" = 1 := by decide
    simp only [ht, if_true, hdf]
    norm_num
  · simp [ht]

theorem oak_qv_zero :
    ∀ t, entryEmbedding 1 (buildDocFreq [oakEntry]) "oak" t = 0 := by
  intro t
  unfold entryEmbedding
  by_cases ht : t ∈ _tokenize "oak"
  · have ht' : t = "oak" := by
      have htok : _tokenize "oak" = ["oak"] := by decide
      rw [htok] at ht
      simpa using ht
    subst ht'
    have hdf : buildDocFreq [oakEntry] "oak" = 1 := by decide
    simp only [ht, if_true, hdf]
    norm_num
  · simp [ht]

theorem oak_norm_zero :
    embeddingNorm "oak oak oak"
      (entryEmbedding 1 (buildDocFreq [oakEntry]) "oak oak oak") = 0 := by
  unfold embeddingNorm
  have : ∀ t ∈ (_tokenize "oak oak oak").toFinset,
      entryEmbedding 1 (buildDocFreq [oakEntry]) "oak oak oak" t ^ 2 = 0 := by
    intro t ht
    rw [oak_emb_zero t]
    norm_num
  rw [Finset.sum_eq_zero this, Real.sqrt_zero]

theorem oak_scoreList :
    ((HowToIndex.ofEntries [oakEntry]).build).scoreList "oak" =
      [{ entry := oakEntry, score := (0 : ℝ) }] := by
  rw [scoreList_eq _ "oak" _ _ (built_embeddings_map [oakEntry] (by decide))
    (built_norms_map [oakEntry] (by decide))]
  rw [build_entries]
  show [oakEntry].map _ = _
  rw [List.map_singleton]
  congr 1
  simp only [List.length_singleton, vectorize_query_built [oakEntry] (by decide) "oak",
    show oakEntry.text = "oak oak oak" from rfl]
  rw [oak_norm_zero]
  have hdot : (∑ t ∈ (_tokenize "oak").toFinset,
      entryEmbedding 1 (buildDocFreq [oakEntry]) "oak" t *
        entryEmbedding 1 (buildDocFreq [oakEntry]) "oak oak oak" t) = 0 :=
    Finset.sum_eq_zero (fun t ht => by rw [oak_qv_zero t, zero_mul])
  norm_num [hdot]

/-- The full search on the oak corpus for any `top_k ≥ 1`: exactly one
result, scored 0. -/
theorem oak_search (k : Int) (hk : 1 ≤ k) :
    (HowToIndex.ofEntries [oakEntry]).search "oak" k =
      ((HowToIndex.ofEntries [oakEntry]).build,
        [{ entry := oakEntry, score := (0 : ℝ) }]) := by
  rw [search_dirty _ "oak" k (by decide) rfl (by decide)]
  congr 1
  rw [oak_scoreList, List.mergeSort_singleton]
  unfold pyTakeSlice
  rw [if_pos (le_trans zero_le_one hk)]
  rw [List.take_of_length_le]
  simp
  omega

/-- C3 as stated is false: the corpus with the single entry
"oak oak oak" and the query "oak" does return exactly one result, but
its score is 0, not within 1e-9 of 1.0 — the smoothed IDF of a token
occurring in the only document is `ln((1+1)/(1+1)) = 0`, so both vectors
are zero and both norms are substituted by 1.0. -/
theorem C3_counterexample :
    ¬(((HowToIndex.ofEntries [oakEntry]).search "oak" 1).2.length = 1 ∧
      ∀ r ∈ ((HowToIndex.ofEntries [oakEntry]).search "oak" 1).2,
        |r.score - 1| ≤ 1e-9) := by
  rintro ⟨-, h⟩
  have hr : ({ entry := oakEntry, score := (0 : ℝ) } : SearchResult) ∈
      ((HowToIndex.ofEntries [oakEntry]).search "oak" 1).2 := by
    rw [oak_search 1 (by decide)]
    exact List.mem_singleton_self _
  have habs := h _ hr
  norm_num at habs

/-- C3 amended: for the corpus consisting of exactly one entry with text
"oak oak oak", `search("oak", k)` with `k ≥ 1` returns exactly one
result and its score equals 0.0 exactly (not 1.0: the smoothed IDF
`ln((1+1)/(1+1))` is 0, both vectors are zero, and both zero norms are
substituted by 1.0). -/
theorem C3_oak_scores_zero (k : Int) (hk : 1 ≤ k) :
    ((HowToIndex.ofEntries [oakEntry]).search "oak" k).2 =
      [{ entry := oakEntry, score := (0 : ℝ) }] := by
  rw [oak_search k hk]

theorem C3_oak_scores_zero_witness :
    ((HowToIndex.ofEntries [oakEntry]).search "oak" 1).2 =
      [{ entry := oakEntry, score := (0 : ℝ) }] :=
  C3_oak_scores_zero 1 (by decide)

/-! ### C7: a query identical to an entry's text maximises that entry's score -/

theorem entryEmbedding_support (numDocs : ℕ) (df : String → ℕ) (text : String)
    (t : String) (ht : t ∉ _tokenize text) :
    entryEmbedding numDocs df text t = 0 := by
  unfold entryEmbedding
  simp [ht]

/-- If the (pre-substitution) norm of a weight function vanishes, every
weight vanishes. -/
theorem norm_zero_values (numDocs : ℕ) (df : String → ℕ) (text : String)
    (h0 : Real.sqrt (∑ t ∈ (_tokenize text).toFinset,
      entryEmbedding numDocs df text t ^ 2) = 0) :
    ∀ t, entryEmbedding numDocs df text t = 0 := by
  intro t
  have hnn : (0:ℝ) ≤ ∑ u ∈ (_tokenize text).toFinset, entryEmbedding numDocs df text u ^ 2 :=
    Finset.sum_nonneg fun u _ => sq_nonneg _
  have hsum := (Real.sqrt_eq_zero hnn).1 h0
  by_cases ht : t ∈ _tokenize text
  · have hz := (Finset.sum_eq_zero_iff_of_nonneg (fun u _ => sq_nonneg _)).1 hsum t
      (List.mem_toFinset.2 ht)
    exact (pow_eq_zero_iff two_ne_zero).1 hz
  · exact entryEmbedding_support numDocs df text t ht

/-- Default `SearchResult` used with `List.getD`. -/
noncomputable def dfltResult : SearchResult :=
  { entry := { key := "", text := "", source := "", metadata := [] }, score := 0 }

theorem scoreList_getD (idx : HowToIndex) (q : String)
    (F : KnowledgeEntry → String → ℝ) (G : KnowledgeEntry → ℝ)
    (hE : idx._embeddings = idx.entries.map F)
    (hN : idx._norms = idx.entries.map G)
    (m : ℕ) (e : KnowledgeEntry) (he : idx.entries[m]? = some e) (d : SearchResult) :
    (idx.scoreList q).getD m d =
      { entry := e
        score :=
          if G e = (0 : ℝ) then 0
          else (∑ t ∈ (_tokenize q).toFinset, idx._vectorize_query q t * F e t) /
            ((if Real.sqrt (∑ t ∈ (_tokenize q).toFinset, idx._vectorize_query q t ^ 2) = 0
              then 1
              else Real.sqrt (∑ t ∈ (_tokenize q).toFinset, idx._vectorize_query q t ^ 2)) *
              G e) } := by
  rw [scoreList_eq idx q F G hE hN, List.getD_eq_getElem?_getD, List.getElem?_map, he]
  rfl

/-- C7: on a corpus of at least 2 documents, a query identical to entry
`i`'s full text gives entry `i` a score at least as large as every other
entry's score in the same search (the score list is the scoring stage of
`search`; the ranked output is a permutation prefix of it).  The proof is
Cauchy–Schwarz: the self score is 1 (or 0 when the entry's vector is
zero) and every cross score is at most 1 (resp. 0). -/
theorem C7_self_query_top (es : List KnowledgeEntry) (h2 : 2 ≤ es.length)
    (i j : ℕ) (hi : i < es.length) (hj : j < es.length) :
    ((((HowToIndex.ofEntries es).build).scoreList es[i].text).getD j dfltResult).score ≤
    ((((HowToIndex.ofEntries es).build).scoreList es[i].text).getD i dfltResult).score := by
  have hne : es ≠ [] := by
    intro h
    rw [h] at h2
    simp at h2
  have hents : ((HowToIndex.ofEntries es).build).entries = es := build_entries _
  have hgi : ((HowToIndex.ofEntries es).build).entries[i]? = some es[i] := by
    rw [hents]
    exact List.getElem?_eq_getElem hi
  have hgj : ((HowToIndex.ofEntries es).build).entries[j]? = some es[j] := by
    rw [hents]
    exact List.getElem?_eq_getElem hj
  rw [scoreList_getD _ es[i].text _ _ (built_embeddings_map es hne) (built_norms_map es hne)
      j es[j] hgj dfltResult,
    scoreList_getD _ es[i].text _ _ (built_embeddings_map es hne) (built_norms_map es hne)
      i es[i] hgi dfltResult]
  rw [vectorize_query_built es hne]
  dsimp only
  unfold embeddingNorm
  set Wi := entryEmbedding es.length (buildDocFreq es) es[i].text with hWi
  set Wj := entryEmbedding es.length (buildDocFreq es) es[j].text with hWj
  set νi := Real.sqrt (∑ t ∈ (_tokenize es[i].text).toFinset, Wi t ^ 2) with hνi
  set νj := Real.sqrt (∑ t ∈ (_tokenize es[j].text).toFinset, Wj t ^ 2) with hνj
  have hsupport_i : ∀ t, t ∉ _tokenize es[i].text → Wi t = 0 := by
    intro t ht
    rw [hWi]
    exact entryEmbedding_support _ _ _ t ht
  have hsupport_j : ∀ t, t ∉ _tokenize es[j].text → Wj t = 0 := by
    intro t ht
    rw [hWj]
    exact entryEmbedding_support _ _ _ t ht
  have hzero_i : νi = 0 → ∀ t, Wi t = 0 := by
    intro h0
    rw [hνi, hWi] at h0
    rw [hWi]
    exact norm_zero_values _ _ _ h0
  have hzero_j : νj = 0 → ∀ t, Wj t = 0 := by
    intro h0
    rw [hνj, hWj] at h0
    rw [hWj]
    exact norm_zero_values _ _ _ h0
  have hνi_nn : 0 ≤ νi := by rw [hνi]; exact Real.sqrt_nonneg _
  have hνj_nn : 0 ≤ νj := by rw [hνj]; exact Real.sqrt_nonneg _
  have hνi_sq : νi ^ 2 = ∑ t ∈ (_tokenize es[i].text).toFinset, Wi t ^ 2 := by
    rw [hνi]
    exact Real.sq_sqrt (Finset.sum_nonneg fun u _ => sq_nonneg _)
  have hνj_sq : νj ^ 2 = ∑ t ∈ (_tokenize es[j].text).toFinset, Wj t ^ 2 := by
    rw [hνj]
    exact Real.sq_sqrt (Finset.sum_nonneg fun u _ => sq_nonneg _)
  by_cases hzi : νi = 0
  · have hW0 := hzero_i hzi
    have hd1 : (∑ t ∈ (_tokenize es[i].text).toFinset, Wi t * Wi t) = 0 :=
      Finset.sum_eq_zero fun t _ => by rw [hW0 t, zero_mul]
    have hd2 : (∑ t ∈ (_tokenize es[i].text).toFinset, Wi t * Wj t) = 0 :=
      Finset.sum_eq_zero fun t _ => by rw [hW0 t, zero_mul]
    rw [hd1, hd2]
    simp [zero_div]
  · have hνipos : 0 < νi := lt_of_le_of_ne hνi_nn (Ne.symm hzi)
    have hdi : (∑ t ∈ (_tokenize es[i].text).toFinset, Wi t * Wi t) = νi ^ 2 := by
      rw [hνi_sq]
      exact Finset.sum_congr rfl fun t _ => (pow_two _).symm
    simp only [if_neg hzi]
    rw [hdi]
    have hRHS : νi ^ 2 / (νi * νi) = 1 := by
      rw [pow_two]
      exact div_self (ne_of_gt (mul_pos hνipos hνipos))
    rw [hRHS]
    by_cases hzj : νj = 0
    · have hWj0 := hzero_j hzj
      have hd2 : (∑ t ∈ (_tokenize es[i].text).toFinset, Wi t * Wj t) = 0 :=
        Finset.sum_eq_zero fun t _ => by rw [hWj0 t, mul_zero]
      simp only [if_pos hzj, hd2]
      rw [if_neg (one_ne_zero : (1:ℝ) ≠ 0)]
      rw [zero_div]
      exact zero_le_one
    · have hνjpos : 0 < νj := lt_of_le_of_ne hνj_nn (Ne.symm hzj)
      simp only [if_neg hzj]
      rw [div_le_one (mul_pos hνipos hνjpos)]
      have hdotU : (∑ t ∈ (_tokenize es[i].text).toFinset, Wi t * Wj t) =
          ∑ t ∈ (_tokenize es[i].text).toFinset ∪ (_tokenize es[j].text).toFinset,
            Wi t * Wj t := by
        apply Finset.sum_subset Finset.subset_union_left
        intro t htU htTi
        rw [hsupport_i t (fun hmem => htTi (List.mem_toFinset.2 hmem)), zero_mul]
      have hUi : (∑ t ∈ (_tokenize es[i].text).toFinset ∪ (_tokenize es[j].text).toFinset,
          Wi t ^ 2) = νi ^ 2 := by
        rw [hνi_sq]
        symm
        apply Finset.sum_subset Finset.subset_union_left
        intro t htU htTi
        rw [hsupport_i t (fun hmem => htTi (List.mem_toFinset.2 hmem))]
        norm_num
      have hUj : (∑ t ∈ (_tokenize es[i].text).toFinset ∪ (_tokenize es[j].text).toFinset,
          Wj t ^ 2) = νj ^ 2 := by
        rw [hνj_sq]
        symm
        apply Finset.sum_subset Finset.subset_union_right
        intro t htU htTj
        rw [hsupport_j t (fun hmem => htTj (List.mem_toFinset.2 hmem))]
        norm_num
      have hCS := Finset.sum_mul_sq_le_sq_mul_sq
        ((_tokenize es[i].text).toFinset ∪ (_tokenize es[j].text).toFinset) Wi Wj
      rw [hUi, hUj] at hCS
      rw [hdotU]
      calc (∑ t ∈ (_tokenize es[i].text).toFinset ∪ (_tokenize es[j].text).toFinset,
              Wi t * Wj t)
          ≤ |∑ t ∈ (_tokenize es[i].text).toFinset ∪ (_tokenize es[j].text).toFinset,
              Wi t * Wj t| := le_abs_self _
        _ = Real.sqrt ((∑ t ∈ (_tokenize es[i].text).toFinset ∪
              (_tokenize es[j].text).toFinset, Wi t * Wj t) ^ 2) :=
            (Real.sqrt_sq_eq_abs _).symm
        _ ≤ Real.sqrt ((νi * νj) ^ 2) := Real.sqrt_le_sqrt (by rw [mul_pow]; exact hCS)
        _ = νi * νj := Real.sqrt_sq (mul_nonneg (le_of_lt hνipos) (le_of_lt hνjpos))

theorem C7_self_query_top_witness :
    ((((HowToIndex.ofEntries [entA, entB]).build).scoreList
        ([entA, entB] : List KnowledgeEntry)[0].text).getD 1 dfltResult).score ≤
    ((((HowToIndex.ofEntries [entA, entB]).build).scoreList
        ([entA, entB] : List KnowledgeEntry)[0].text).getD 0 dfltResult).score :=
  C7_self_query_top [entA, entB] (by decide) 0 1 (by decide) (by decide)

end MineAgents
